import Mathlib

/-!
The package `dbtest`: a test-fixture loader.

A shallow embedding of `dbtest.go` (package `dbtest`).

* `SafeTime` is embedded together with the functions of Go's `time` package it calls
  (`Time.UTC`, `Time.Round`, `Time.Add` and their helpers).
* The insert functions are embedded over an explicit model of what they talk to:
  the `squirrel` INSERT builder, a transactional database behind `pgxpool`/`pgx`
  whose statement outcomes are parameters, and `require.NoError`, whose failure
  stops the goroutine after running the deferred calls.
-/

namespace dbtest

/-! ## Go's `time` package

The definitions below follow `time.go` of the Go standard library: the methods `UTC`,
`Round`, `Add`, `addSec`, `stripMono`, `setLoc` and the functions `div` and `lessThanHalf`.
Integers of type int64 are mathematical integers, with the wrap-around written out where
the source can overflow. -/

/-- A `*time.Location`: UTC, or any other zone. -/
inductive Location
  | UTC
  | zone (name : String) (offset : Int)
  deriving DecidableEq, Repr

/-- The constant `time.Microsecond`; a `time.Duration` is an int64 count of nanoseconds. -/
def Microsecond : Int := 1000

/-- The constant `time.Second`. -/
def Second : Int := 1000000000

/-- The constant `wallToInternal` of `time`: seconds from year 1 to year 1885. -/
def wallToInternal : Int := (1884 * 365 + 1884 / 4 - 1884 / 100 + 1884 / 400) * 86400

/-- The value an int64 computation keeps of the mathematical result `x` (wrap-around). -/
def wrapInt64 (x : Int) : Int := (x + 9223372036854775808) % 18446744073709551616 - 9223372036854775808

/-- The conversion `uint64(x)` of an int64. -/
def toUint64 (x : Int) : Int := x % 18446744073709551616

/-- A `time.Time`, seen through its accessors: `sec` is `t.sec()`, the int64 count of
seconds since January 1 of year 1; `nsec` is `t.nsec()`, in `[0, 999999999]`; `mono` is the
monotonic clock reading when the value carries one (`wall&hasMonotonic != 0`); `loc` is
the location. -/
structure Time where
  sec : Int
  nsec : Int
  mono : Option Int
  loc : Location
  sec_lo : -9223372036854775808 ≤ sec
  sec_hi : sec ≤ 9223372036854775807
  nsec_lo : 0 ≤ nsec
  nsec_hi : nsec < 1000000000

/-- The constant `unixToInternal` of `time`: seconds from year 1 to 1970. -/
def unixToInternal : Int := (1969 * 365 + 1969 / 4 - 1969 / 100 + 1969 / 400) * 86400

/-- Nanoseconds from the Unix epoch to the instant a `Time` denotes, as an integer without
overflow. -/
def Time.unixNanos (t : Time) : Int := (t.sec - unixToInternal) * 1000000000 + t.nsec

/-- The method `stripMono` of `time.Time`: drop the monotonic clock reading. -/
def Time.stripMono (t : Time) : Time := { t with mono := none }

/-- The method `setLoc` of `time.Time`. -/
def Time.setLoc (t : Time) (loc : Location) : Time := { t.stripMono with loc := loc }

/-- The method `UTC` of `time.Time`: the same instant with the location set to UTC. -/
def Time.UTC (t : Time) : Time := t.setLoc Location.UTC

/-- The tail of `addSec`: add `d` to the int64 `ext`, saturating when the sum overflows. -/
def addExt (ext d : Int) : Int :=
  let sum := wrapInt64 (ext + d)
  if decide (sum > ext) = decide (d > 0) then sum
  else if d > 0 then 9223372036854775807
  else -9223372036854775807

/-- The method `addSec` of `time.Time`. With a monotonic reading the wall seconds are a
33-bit count from 1885; when the new count does not fit, the reading is dropped. -/
def Time.addSec (t : Time) (d : Int) : Time :=
  if h : t.mono.isSome ∧ 0 ≤ t.sec - wallToInternal + d ∧ t.sec - wallToInternal + d ≤ 8589934591 then
    { t with
      sec := wallToInternal + (t.sec - wallToInternal + d)
      sec_lo := by have := h.2.1; have := t.sec_lo; unfold wallToInternal at *; omega
      sec_hi := by have := h.2.2; unfold wallToInternal at *; omega }
  else
    { t with
      mono := none
      sec := addExt t.sec d
      sec_lo := by unfold addExt wrapInt64; simp only; split_ifs <;> omega
      sec_hi := by unfold addExt wrapInt64; simp only; split_ifs <;> omega }

/-- The nanosecond field after `Add`: `nsec + int32(d % 1e9)` brought back into range,
with the carry into the seconds. -/
def addNsec (nsec : Int) (d : Int) : Int × Int :=
  let dsec := d.tdiv 1000000000
  let n := nsec + d.tmod 1000000000
  if n ≥ 1000000000 then (dsec + 1, n - 1000000000)
  else if n < 0 then (dsec - 1, n + 1000000000)
  else (dsec, n)

/-- The method `Add` of `time.Time`. -/
def Time.Add (t : Time) (d : Int) : Time :=
  let t1 : Time :=
    { t with
      nsec := (addNsec t.nsec d).2
      nsec_lo := by
        have h0 := t.nsec_lo
        have h1 : (-d).tmod 1000000000 = -(d.tmod 1000000000) := by
          rw [Int.tmod_def, Int.tmod_def, Int.neg_tdiv]; ring
        have h2 := Int.tmod_lt_of_pos (-d) (show (0 : Int) < 1000000000 by norm_num)
        unfold addNsec
        simp only
        split_ifs <;> simp only <;> omega
      nsec_hi := by
        have h0 := t.nsec_hi
        have h2 := Int.tmod_lt_of_pos d (show (0 : Int) < 1000000000 by norm_num)
        unfold addNsec
        simp only
        split_ifs <;> simp only <;> omega }
  let t2 := t1.addSec (addNsec t.nsec d).1
  match t2.mono with
  | none => t2
  | some m =>
    let te := wrapInt64 (m + d)
    if (d < 0 ∧ te > m) ∨ (d > 0 ∧ te < m) then t2.stripMono
    else { t2 with mono := some te }

/-- The function `div` of `time`: the parity of the quotient and the remainder of the time
since the zero time divided by `d`. The source computes the general case on
`uint64(sec)` in two 64-bit halves; it is given here by its result. -/
def div (t : Time) (d : Int) : Int × Int :=
  let neg := decide (t.sec < 0)
  let nsec0 := if t.sec < 0 then -t.nsec else t.nsec
  let sec0 := if t.sec < 0 then wrapInt64 (-t.sec) else t.sec
  let nsec := if t.sec < 0 ∧ nsec0 < 0 then nsec0 + 1000000000 else nsec0
  let sec := if t.sec < 0 ∧ nsec0 < 0 then wrapInt64 (sec0 - 1) else sec0
  let qr : Int × Int :=
    if d < Second ∧ Second.tmod (d + d) = 0 then
      ((nsec.tdiv d) % 2, nsec.tmod d)
    else if d.tmod Second = 0 then
      let d1 := d.tdiv Second
      ((sec.tdiv d1) % 2, (sec.tmod d1) * Second + nsec)
    else
      (((toUint64 sec * 1000000000 + nsec) / d) % 2, (toUint64 sec * 1000000000 + nsec) % d)
  if neg ∧ qr.2 ≠ 0 then ((qr.1 + 1) % 2, d - qr.2) else qr

/-- The function `lessThanHalf` of `time`: `uint64(x)+uint64(x) < uint64(y)`. -/
def lessThanHalf (x y : Int) : Bool :=
  decide ((toUint64 x + toUint64 x) % 18446744073709551616 < toUint64 y)

/-- The method `Round` of `time.Time`: round to the nearest multiple of `d` since the zero
time, halfway values rounding up. -/
def Time.Round (t : Time) (d : Int) : Time :=
  let t := t.stripMono
  if d ≤ 0 then t
  else
    let r := (div t d).2
    if lessThanHalf r d then t.Add (-r) else t.Add (d - r)

/-! ## `SafeTime` -/

/-- The function `SafeTime` of `dbtest.go`: `t.UTC().Round(time.Microsecond)`. -/
def SafeTime (t : Time) : Time := t.UTC.Round Microsecond

/-- A time in UTC whose sub-microsecond part is 999 nanoseconds:
`time.Unix(1700000000, 999).UTC()`. -/
def timeAt999 : Time :=
  { sec := unixToInternal + 1700000000, nsec := 999, mono := none, loc := Location.UTC
    sec_lo := by decide
    sec_hi := by decide
    nsec_lo := by decide
    nsec_hi := by decide }

/-! ## Values, rows and tables -/

/-- A Go `error`, identified by the text of its `Error()`. -/
abbrev Err := String

/-- What the program can observe of a value of type `interface{}` held in a row: its
rendering under the verb `%+v`, and, when its dynamic type implements squirrel's `Sqlizer`,
the result of its `ToSql()`. -/
structure Dyn (V : Type) where
  format : V → String
  sqlizer : V → Option (Except Err (String × List V))

/-- The type `DBRow`, a `map[string]interface{}`: its entries, listed in the order in which
the `range` loop of `insertDBRowsTx` visits them. The keys of a map are distinct. -/
structure DBRow (V : Type) where
  entries : List (String × V)
  nodup : (entries.map Prod.fst).Nodup

/-- The type `DBTableRows`. -/
structure DBTableRows (V : Type) where
  Table : String
  Rows : List (DBRow V)

/-! ## Go's `strings` and `fmt` -/

/-- Go's `strings.Join`. -/
def Join : List String → String → String
  | [], _ => ""
  | [a], _ => a
  | a :: b :: rest, sep => a ++ sep ++ Join (b :: rest) sep

/-- Byte-wise `<` on strings, as Go compares them. -/
def lessChars : List Char → List Char → Bool
  | [], [] => false
  | [], _ :: _ => true
  | _ :: _, [] => false
  | a :: as, b :: bs => if a.toNat < b.toNat then true else if b.toNat < a.toNat then false else lessChars as bs

/-- Insert an entry into a list sorted by key. -/
def insertByKey {V : Type} (e : String × V) : List (String × V) → List (String × V)
  | [] => [e]
  | x :: xs => if lessChars x.1.toList e.1.toList then x :: insertByKey e xs else e :: x :: xs

/-- The entries of a map sorted by key, the order in which `fmt` prints a map. -/
def sortByKey {V : Type} : List (String × V) → List (String × V)
  | [] => []
  | e :: es => insertByKey e (sortByKey es)

/-- The rendering of a `DBRow` under `%+v`: `map[k1:v1 k2:v2]`, keys in sorted order. -/
def formatRow {V : Type} (dyn : Dyn V) (row : DBRow V) : String :=
  "map[" ++ Join ((sortByKey row.entries).map (fun e => e.1 ++ ":" ++ dyn.format e.2)) " " ++ "]"

/-- The call `fmt.Sprintf("table: %s\nrow: %+v", table, row)`. -/
def Sprintf_table_row {V : Type} (dyn : Dyn V) (table : String) (row : DBRow V) : String :=
  "table: " ++ table ++ "\nrow: " ++ formatRow dyn row

/-! ## The `squirrel` INSERT builder

The definitions below follow `insert.go` and `placeholder.go` of
`github.com/Masterminds/squirrel`, the library `insertDBRowsTx` builds its statements
with. -/

/-- The placeholder formats of squirrel. -/
inductive PlaceholderFormat
  | Question
  | Dollar
  | Colon
  | AtP
  deriving DecidableEq, Repr

/-- The fields of squirrel's `insertData` that this program sets. Its other fields
(prefixes, options, suffixes, select) are never set and stay empty. -/
structure insertData (V : Type) where
  Placeholder : PlaceholderFormat
  Into : String
  Columns : List String
  Values : List (List V)

/-- The call `squirrel.Insert(into)`: a builder whose placeholder format is `Question`. -/
def Insert {V : Type} (into : String) : insertData V :=
  { Placeholder := PlaceholderFormat.Question, Into := into, Columns := [], Values := [] }

/-- The builder method `Columns(columns...)`: append the columns. -/
def InsertBuilder.Columns {V : Type} (b : insertData V) (columns : List String) : insertData V :=
  { b with Columns := b.Columns ++ columns }

/-- The builder method `Values(values...)`: append one row of values. -/
def InsertBuilder.Values {V : Type} (b : insertData V) (values : List V) : insertData V :=
  { b with Values := b.Values ++ [values] }

/-- The builder method `PlaceholderFormat(f)`. -/
def InsertBuilder.PlaceholderFormat {V : Type} (b : insertData V) (f : PlaceholderFormat) :
    insertData V :=
  { b with Placeholder := f }

/-- The loop of squirrel's `replacePositionalPlaceholders`: `??` becomes `?`, any other `?`
becomes the next numbered placeholder, everything else is copied. -/
def replaceLoop (pfx : String) : Nat → List Char → List Char
  | _, [] => []
  | i, [c] => if c = '?' then (pfx ++ toString (i + 1)).toList else [c]
  | i, c :: c2 :: rest =>
    if c = '?' then
      if c2 = '?' then '?' :: replaceLoop pfx i rest
      else (pfx ++ toString (i + 1)).toList ++ replaceLoop pfx (i + 1) (c2 :: rest)
    else c :: replaceLoop pfx i (c2 :: rest)

/-- The loop of `replacePositionalPlaceholders` on a string, with `i` placeholders already
numbered. -/
def replaceFrom (pfx : String) (i : Nat) (sql : String) : String :=
  String.mk (replaceLoop pfx i sql.toList)

/-- The function `replacePositionalPlaceholders` of squirrel. -/
def replacePositionalPlaceholders (sql pfx : String) : String :=
  replaceFrom pfx 0 sql

/-- The placeholders `$i+1`, ..., `$i+n`. -/
def dollars : Nat → Nat → List String
  | _, 0 => []
  | i, n + 1 => ("$" ++ toString (i + 1)) :: dollars (i + 1) n

/-- The method `ReplacePlaceholders` of a placeholder format. -/
def PlaceholderFormat.ReplacePlaceholders (f : PlaceholderFormat) (sql : String) : String :=
  match f with
  | PlaceholderFormat.Question => sql
  | PlaceholderFormat.Dollar => replacePositionalPlaceholders sql "$"
  | PlaceholderFormat.Colon => replacePositionalPlaceholders sql ":"
  | PlaceholderFormat.AtP => replacePositionalPlaceholders sql "@p"

/-- The inner loop of `appendValuesToSQL`, over the values of one row: a `Sqlizer` value
contributes its own SQL and arguments, any other value a `?` and itself. -/
def valueStrings {V : Type} (dyn : Dyn V) : List V → Except Err (List String × List V)
  | [] => Except.ok ([], [])
  | val :: rest =>
    match dyn.sqlizer val with
    | some (Except.error err) => Except.error err
    | some (Except.ok (vsql, vargs)) =>
      match valueStrings dyn rest with
      | Except.error err => Except.error err
      | Except.ok (ss, args) => Except.ok (vsql :: ss, vargs ++ args)
    | none =>
      match valueStrings dyn rest with
      | Except.error err => Except.error err
      | Except.ok (ss, args) => Except.ok ("?" :: ss, val :: args)

/-- The outer loop of `appendValuesToSQL`, over the rows of values: one parenthesised,
comma-separated group per row. -/
def valuesStrings {V : Type} (dyn : Dyn V) : List (List V) → Except Err (List String × List V)
  | [] => Except.ok ([], [])
  | row :: rest =>
    match valueStrings dyn row with
    | Except.error err => Except.error err
    | Except.ok (ss, args) =>
      match valuesStrings dyn rest with
      | Except.error err => Except.error err
      | Except.ok (gs, args2) => Except.ok (("(" ++ Join ss "," ++ ")") :: gs, args ++ args2)

/-- The method `appendValuesToSQL` of squirrel's `insertData`. -/
def appendValuesToSQL {V : Type} (dyn : Dyn V) (d : insertData V) :
    Except Err (String × List V) :=
  if d.Values.length = 0 then Except.error "values for insert statements are not set"
  else
    match valuesStrings dyn d.Values with
    | Except.error err => Except.error err
    | Except.ok (gs, args) => Except.ok ("VALUES " ++ Join gs ",", args)

/-- The method `ToSql` of squirrel's `insertData`. -/
def ToSql {V : Type} (dyn : Dyn V) (d : insertData V) : Except Err (String × List V) :=
  if d.Into.length = 0 then Except.error "insert statements must specify a table"
  else if d.Values.length = 0 then
    Except.error "insert statements must have at least one set of values or select clause"
  else
    let head := "INSERT " ++ "INTO " ++ d.Into ++ " " ++
      (if d.Columns.length > 0 then "(" ++ Join d.Columns "," ++ ") " else "")
    match appendValuesToSQL dyn d with
    | Except.error err => Except.error err
    | Except.ok (vals, args) => Except.ok (d.Placeholder.ReplacePlaceholders (head ++ vals), args)

/-! ## The database behind `pgxpool`, and `require.NoError`

The server is a parameter: what `Begin`, each statement and `Commit` return is given by a
`Pool` value. The transaction methods follow `pgx`: a transaction is closed by `Commit`,
whether it succeeds or not, and by `Rollback`; on a closed transaction they return
`ErrTxClosed`. -/

/-- A call the program makes on the pool or on the transaction. -/
inductive Call (Ctx V : Type)
  | Begin (ctx : Ctx)
  | Exec (ctx : Ctx) (sql : String) (args : List V)
  | Commit (ctx : Ctx)
  | Rollback (ctx : Ctx)
  deriving DecidableEq, Repr

/-- The server behind a `*pgxpool.Pool`, as far as this program can tell: whether beginning
a transaction fails, what a statement does to the pending state of the transaction or which
error it returns, and whether a commit fails. Deadlines and cancellation show up as
errors of these operations for the given context. -/
structure Pool (Ctx D V : Type) where
  begin : Ctx → D → Option Err
  exec : Ctx → D → String → List V → Except Err D
  commit : Ctx → D → Option Err

/-- The database as the program drives it: the committed contents, the pending contents of
the open transaction if there is one, and the calls made so far, oldest first. Statements
of a transaction change its pending contents only; a commit that succeeds makes them the
committed contents; a rollback or a failed commit discards them. -/
structure DB (Ctx D V : Type) where
  committed : D
  tx : Option D
  log : List (Call Ctx V)
  deriving DecidableEq, Repr

/-- The call `conn.Begin(ctx)`. -/
def Pool.Begin {Ctx D V : Type} (pool : Pool Ctx D V) (ctx : Ctx) (s : DB Ctx D V) :
    Option Err × DB Ctx D V :=
  match pool.begin ctx s.committed with
  | some err => (some err, { s with log := s.log ++ [Call.Begin ctx] })
  | none => (none, { s with tx := some s.committed, log := s.log ++ [Call.Begin ctx] })

/-- The call `tx.Exec(ctx, sql, args...)`. -/
def Tx.Exec {Ctx D V : Type} (pool : Pool Ctx D V) (ctx : Ctx) (sql : String) (args : List V)
    (s : DB Ctx D V) : Option Err × DB Ctx D V :=
  match s.tx with
  | none => (some "tx is closed", { s with log := s.log ++ [Call.Exec ctx sql args] })
  | some pending =>
    match pool.exec ctx pending sql args with
    | Except.error err => (some err, { s with log := s.log ++ [Call.Exec ctx sql args] })
    | Except.ok pending2 =>
      (none, { s with tx := some pending2, log := s.log ++ [Call.Exec ctx sql args] })

/-- The call `tx.Commit(ctx)`. -/
def Tx.Commit {Ctx D V : Type} (pool : Pool Ctx D V) (ctx : Ctx) (s : DB Ctx D V) :
    Option Err × DB Ctx D V :=
  match s.tx with
  | none => (some "tx is closed", { s with log := s.log ++ [Call.Commit ctx] })
  | some pending =>
    match pool.commit ctx pending with
    | some err => (some err, { s with tx := none, log := s.log ++ [Call.Commit ctx] })
    | none =>
      (none, { s with committed := pending, tx := none, log := s.log ++ [Call.Commit ctx] })

/-- The call `tx.Rollback(ctx)`: on a transaction already closed it returns `ErrTxClosed`
and changes nothing. -/
def Tx.Rollback {Ctx D V : Type} (ctx : Ctx) (s : DB Ctx D V) : Option Err × DB Ctx D V :=
  match s.tx with
  | none => (some "tx is closed", { s with log := s.log ++ [Call.Rollback ctx] })
  | some _ => (none, { s with tx := none, log := s.log ++ [Call.Rollback ctx] })

/-- What a failed `require.NoError(t, err, msgAndArgs...)` gives the test framework: the
error and the message arguments of the call. -/
structure Failure where
  err : Err
  msgAndArgs : List String
  deriving DecidableEq, Repr

/-- The call `require.NoError(t, err, msgAndArgs...)`: `none` when `err` is nil; otherwise
the failure with which `t.FailNow()` stops the goroutine, after which only the deferred
calls run. -/
def NoError (err : Option Err) (msgAndArgs : List String) : Option Failure :=
  match err with
  | none => none
  | some e => some { err := e, msgAndArgs := msgAndArgs }

/-! ## The loader -/

/-- The `range` loop over a row in `insertDBRowsTx`, appending each key to `columns` and
each value to `values`. -/
def rangeRow {V : Type} (row : DBRow V) : List String × List V :=
  row.entries.foldl (fun acc kv => (acc.1 ++ [kv.1], acc.2 ++ [kv.2])) ([], [])

/-- The statement `insertDBRowsTx` builds for one row:
`squirrel.Insert(table).Columns(columns...).Values(values...).PlaceholderFormat(squirrel.Dollar).ToSql()`. -/
def rowToSql {V : Type} (dyn : Dyn V) (table : String) (row : DBRow V) :
    Except Err (String × List V) :=
  let columns := (rangeRow row).1
  let values := (rangeRow row).2
  ToSql dyn
    (InsertBuilder.PlaceholderFormat
      (InsertBuilder.Values (InsertBuilder.Columns (Insert table) columns) values)
      PlaceholderFormat.Dollar)

/-- The loop of `insertDBRowsTx` over the rows of one table. The result is the failure that
stopped the test, if any, with the database as the loop left it. -/
def insertRows {Ctx D V : Type} (dyn : Dyn V) (pool : Pool Ctx D V) (ctx : Ctx)
    (table : String) : List (DBRow V) → DB Ctx D V → Option Failure × DB Ctx D V
  | [], s => (none, s)
  | row :: rest, s =>
    let errmsg := Sprintf_table_row dyn table row
    match rowToSql dyn table row with
    | Except.error err => (NoError (some err) [errmsg], s)
    | Except.ok (sql, args) =>
      match Tx.Exec pool ctx sql args s with
      | (some err, s2) => (NoError (some err) [errmsg], s2)
      | (none, s2) => insertRows dyn pool ctx table rest s2

/-- The function `insertDBRowsTx`. -/
def insertDBRowsTx {Ctx D V : Type} (dyn : Dyn V) (pool : Pool Ctx D V) (ctx : Ctx)
    (rows : DBTableRows V) (s : DB Ctx D V) : Option Failure × DB Ctx D V :=
  insertRows dyn pool ctx rows.Table rows.Rows s

/-- The loop of `InsertDBTablesWithCtx` over the tables. -/
def insertTables {Ctx D V : Type} (dyn : Dyn V) (pool : Pool Ctx D V) (ctx : Ctx) :
    List (DBTableRows V) → DB Ctx D V → Option Failure × DB Ctx D V
  | [], s => (none, s)
  | rows :: rest, s =>
    match insertDBRowsTx dyn pool ctx rows s with
    | (some f, s2) => (some f, s2)
    | (none, s2) => insertTables dyn pool ctx rest s2

/-- The function `InsertDBTablesWithCtx`. The result is the failure reported to the test,
if any, and the database after the call has returned, the deferred `tx.Rollback(ctx)`
included. When `conn.Begin` fails, the test stops before the rollback is deferred. -/
def InsertDBTablesWithCtx {Ctx D V : Type} (dyn : Dyn V) (pool : Pool Ctx D V) (ctx : Ctx)
    (tables : List (DBTableRows V)) (s : DB Ctx D V) : Option Failure × DB Ctx D V :=
  match Pool.Begin pool ctx s with
  | (some err, s1) => (NoError (some err) [], s1)
  | (none, s1) =>
    let body : Option Failure × DB Ctx D V :=
      match insertTables dyn pool ctx tables s1 with
      | (some f, s2) => (some f, s2)
      | (none, s2) =>
        match Tx.Commit pool ctx s2 with
        | (some err, s3) => (NoError (some err) [], s3)
        | (none, s3) => (none, s3)
    (body.1, (Tx.Rollback ctx body.2).2)

/-- The function `InsertDBRowsWithCtx`. -/
def InsertDBRowsWithCtx {Ctx D V : Type} (dyn : Dyn V) (pool : Pool Ctx D V) (ctx : Ctx)
    (rows : DBTableRows V) (s : DB Ctx D V) : Option Failure × DB Ctx D V :=
  InsertDBTablesWithCtx dyn pool ctx [rows] s

/-- The part of Go's `context` package that `InsertDBTables` uses: the background context
and the context derived from a parent by a timeout in nanoseconds. -/
structure Context (Ctx : Type) where
  Background : Ctx
  WithTimeout : Ctx → Int → Ctx

/-- The function `InsertDBTables`: `InsertDBTablesWithCtx` under a context with a timeout of
five seconds. The deferred `cancel()` makes no call on the database. -/
def InsertDBTables {Ctx D V : Type} (dyn : Dyn V) (context : Context Ctx)
    (pool : Pool Ctx D V) (tables : List (DBTableRows V)) (s : DB Ctx D V) :
    Option Failure × DB Ctx D V :=
  let ctx := context.WithTimeout context.Background (5 * Second)
  InsertDBTablesWithCtx dyn pool ctx tables s

/-- The function `InsertDBRows`. -/
def InsertDBRows {Ctx D V : Type} (dyn : Dyn V) (context : Context Ctx)
    (pool : Pool Ctx D V) (rows : DBTableRows V) (s : DB Ctx D V) :
    Option Failure × DB Ctx D V :=
  InsertDBTables dyn context pool [rows] s

/-! ## The statements of a batch, for stating what a run does -/

/-- The rows of a batch in batch order, each with the name of its table. -/
def batchRows {V : Type} : List (DBTableRows V) → List (String × DBRow V)
  | [] => []
  | rows :: rest => rows.Rows.map (fun row => (rows.Table, row)) ++ batchRows rest

/-- Statements executed one after the other on the pending contents of a transaction: the
contents after the last one, or the first error. -/
def runStmts {Ctx D V : Type} (pool : Pool Ctx D V) (ctx : Ctx) :
    List (String × List V) → D → Except Err D
  | [], d => Except.ok d
  | q :: rest, d =>
    match pool.exec ctx d q.1 q.2 with
    | Except.error err => Except.error err
    | Except.ok d2 => runStmts pool ctx rest d2

/-- The `Exec` call that sends a statement. -/
def execCall {Ctx V : Type} (ctx : Ctx) (q : String × List V) : Call Ctx V :=
  Call.Exec ctx q.1 q.2

/-- The two loops of the loader as one loop over the rows of the batch: what running
`insertDBRowsTx` on every table amounts to. -/
def insertBatch {Ctx D V : Type} (dyn : Dyn V) (pool : Pool Ctx D V) (ctx : Ctx) :
    List (String × DBRow V) → DB Ctx D V → Option Failure × DB Ctx D V
  | [], s => (none, s)
  | p :: rest, s =>
    match rowToSql dyn p.1 p.2 with
    | Except.error err => (NoError (some err) [Sprintf_table_row dyn p.1 p.2], s)
    | Except.ok (sql, args) =>
      match Tx.Exec pool ctx sql args s with
      | (some err, s2) => (NoError (some err) [Sprintf_table_row dyn p.1 p.2], s2)
      | (none, s2) => insertBatch dyn pool ctx rest s2

/-- The `Exec` call made for a row, if its statement can be built. -/
def execCallOfRow {Ctx V : Type} (dyn : Dyn V) (ctx : Ctx) (p : String × DBRow V) :
    List (Call Ctx V) :=
  match rowToSql dyn p.1 p.2 with
  | Except.error _ => []
  | Except.ok q => [execCall ctx q]

/-- The error with which a row fails on the pending contents `d`: that of building its
statement, or else that of executing it; `none` when both succeed. -/
def rowError {Ctx D V : Type} (dyn : Dyn V) (pool : Pool Ctx D V) (ctx : Ctx) (d : D)
    (p : String × DBRow V) : Option Err :=
  match rowToSql dyn p.1 p.2 with
  | Except.error err => some err
  | Except.ok q =>
    match pool.exec ctx d q.1 q.2 with
    | Except.error err => some err
    | Except.ok _ => none

/-- Every step of a call on the batch succeeds from the committed contents `d`: the
transaction begins, every row yields a statement, the statements execute one after the
other, and the commit goes through. -/
def AllStepsSucceed {Ctx D V : Type} (dyn : Dyn V) (pool : Pool Ctx D V) (ctx : Ctx)
    (tables : List (DBTableRows V)) (d : D) : Prop :=
  pool.begin ctx d = none ∧
    ∃ (stmts : List (String × List V)) (d2 : D),
      (batchRows tables).map (fun p => rowToSql dyn p.1 p.2) = stmts.map Except.ok ∧
        runStmts pool ctx stmts d = Except.ok d2 ∧ pool.commit ctx d2 = none

/-- The end of `InsertDBTablesWithCtx`, after the loop over the tables has left the result
`r`: the commit when no row failed, then the deferred rollback. -/
def commitAndRollback {Ctx D V : Type} (pool : Pool Ctx D V) (ctx : Ctx)
    (r : Option Failure × DB Ctx D V) : Option Failure × DB Ctx D V :=
  let body : Option Failure × DB Ctx D V :=
    match r with
    | (some f, s2) => (some f, s2)
    | (none, s2) =>
      match Tx.Commit pool ctx s2 with
      | (some err, s3) => (NoError (some err) [], s3)
      | (none, s3) => (none, s3)
  (body.1, (Tx.Rollback ctx body.2).2)

/-! ## Concrete values, pools and batches -/

/-- Text values, none of which is a `Sqlizer`. -/
def textDyn : Dyn String :=
  { format := fun v => v, sqlizer := fun _ => none }

/-- Text values among which `NOW()` stands for `squirrel.Expr("NOW()")`, a `Sqlizer` whose
SQL is `NOW()` and which has no arguments. -/
def exprDyn : Dyn String :=
  { format := fun v => v
    sqlizer := fun v => if v = "NOW()" then some (Except.ok ("NOW()", [])) else none }

/-- A server that stores every statement it executes, in order, and rejects a statement with
the argument `dup` as a constraint violation. -/
def storePool : Pool Unit (List (String × List String)) String :=
  { begin := fun _ _ => none
    exec := fun _ d sql args =>
      if "dup" ∈ args then Except.error "unique constraint violated"
      else Except.ok (d ++ [(sql, args)])
    commit := fun _ _ => none }

/-- A server on which no transaction can begin. -/
def downPool : Pool Unit (List (String × List String)) String :=
  { storePool with begin := fun _ _ => some "connection refused" }

/-- A server on which every commit fails. -/
def noCommitPool : Pool Unit (List (String × List String)) String :=
  { storePool with commit := fun _ _ => some "commit failed" }

/-- An empty database with no open transaction and no call made. -/
def emptyDB : DB Unit (List (String × List String)) String :=
  { committed := [], tx := none, log := [] }

/-- The row `id: 1, name: alice`. -/
def aliceRow : DBRow String :=
  { entries := [("id", "1"), ("name", "alice")], nodup := by decide }

/-- The same row visited in the other order. -/
def aliceRowSwapped : DBRow String :=
  { entries := [("name", "alice"), ("id", "1")], nodup := by decide }

/-- A row that violates a constraint on `storePool`. -/
def dupRow : DBRow String :=
  { entries := [("id", "dup")], nodup := by decide }

/-- The row with no columns. -/
def emptyRow : DBRow String :=
  { entries := [], nodup := by decide }

/-- A row with a column whose name contains a question mark. -/
def questionRow : DBRow String :=
  { entries := [("a?", "x")], nodup := by decide }

/-- A row with a `Sqlizer` value under `exprDyn`. -/
def nowRow : DBRow String :=
  { entries := [("created", "NOW()"), ("name", "bob")], nodup := by decide }

/-- A batch of two tables whose rows are all valid. -/
def goodBatch : List (DBTableRows String) :=
  [{ Table := "orders", Rows := [aliceRow] },
   { Table := "order_items", Rows := [aliceRowSwapped, emptyRow] }]

/-- The statements of `goodBatch`. -/
def goodStmts : List (String × List String) :=
  [("INSERT INTO orders (id,name) VALUES ($1,$2)", ["1", "alice"]),
   ("INSERT INTO order_items (name,id) VALUES ($1,$2)", ["alice", "1"]),
   ("INSERT INTO order_items VALUES ()", [])]

/-- A batch whose second table has a row that violates a constraint, with rows before and
after it. -/
def dupBatch : List (DBTableRows String) :=
  [{ Table := "orders", Rows := [aliceRow] },
   { Table := "order_items", Rows := [aliceRowSwapped, dupRow, aliceRow] },
   { Table := "later", Rows := [aliceRow] }]

/-- The statements of the rows of `dupBatch` before the failing one. -/
def dupStmtsBefore : List (String × List String) :=
  [("INSERT INTO orders (id,name) VALUES ($1,$2)", ["1", "alice"]),
   ("INSERT INTO order_items (name,id) VALUES ($1,$2)", ["alice", "1"])]

/-- A server like `storePool` that rejects a statement without arguments. -/
def strictPool : Pool Unit (List (String × List String)) String :=
  { storePool with
    exec := fun _ d sql args =>
      if args = [] then Except.error "syntax error at or near \")\""
      else Except.ok (d ++ [(sql, args)]) }

/-- A batch in which a row with no columns stands between other rows. -/
def emptyMidBatch : List (DBTableRows String) :=
  [{ Table := "orders", Rows := [aliceRow] },
   { Table := "t", Rows := [emptyRow, aliceRowSwapped] }]

/-! ## Theorems about `SafeTime` -/

theorem Time.ext_fields {a b : Time} (h1 : a.sec = b.sec) (h2 : a.nsec = b.nsec)
    (h3 : a.mono = b.mono) (h4 : a.loc = b.loc) : a = b := by
  cases a; cases b; simp_all

/-- For a multiple of a microsecond, `div` returns the sub-microsecond nanoseconds. -/
theorem div_Microsecond (t : Time) : (div t Microsecond).2 = t.nsec % 1000 := by
  have h0 := t.nsec_lo
  have h1 := t.nsec_hi
  have hc : (Microsecond < Second ∧ Second.tmod (Microsecond + Microsecond) = 0) := by
    unfold Microsecond Second; decide
  unfold div
  simp only [hc, and_self, if_true]
  by_cases hs : t.sec < 0
  · by_cases hn : t.nsec = 0
    · simp [hs, hn, Microsecond]
    · have hneg : -t.nsec < 0 := by omega
      have e : (-t.nsec + 1000000000).tmod Microsecond = (-t.nsec + 1000000000) % 1000 :=
        Int.tmod_eq_emod (by omega) (by unfold Microsecond; norm_num)
      simp only [hs, hneg, and_self, if_true, decide_True, true_and]
      rw [e]
      split_ifs with h
      · dsimp only
        unfold Microsecond
        omega
      · simp only [ne_eq, not_not] at h
        dsimp only
        omega
  · have e : t.nsec.tmod Microsecond = t.nsec % 1000 :=
      Int.tmod_eq_emod h0 (by unfold Microsecond; norm_num)
    simp [hs, e]

theorem lessThanHalf_Microsecond (r : Int) (h0 : 0 ≤ r) (h1 : r < 1000) :
    lessThanHalf r Microsecond = decide (r < 500) := by
  unfold lessThanHalf toUint64 Microsecond
  congr 1
  apply propext
  constructor <;> intro h <;> omega

theorem addNsec_neg (n r : Int) (h0 : 0 ≤ r) (h1 : r ≤ n) (h2 : n < 1000000000) :
    addNsec n (-r) = (0, n - r) := by
  have e1 : r.tdiv 1000000000 = 0 := by
    rw [Int.tdiv_eq_ediv h0 (by norm_num)]; omega
  have e2 : (-r).tdiv 1000000000 = 0 := by rw [Int.neg_tdiv, e1]; rfl
  have e3 : (-r).tmod 1000000000 = -r := by rw [Int.tmod_def, e2]; ring
  unfold addNsec
  simp only [e2, e3]
  split_ifs <;> first | omega | rfl

theorem addNsec_pos (n d : Int) (h0 : 0 ≤ d) (h1 : d ≤ 1000) (h2 : 0 ≤ n)
    (h3 : n < 1000000000) :
    addNsec n d = if n + d ≥ 1000000000 then (1, n + d - 1000000000) else (0, n + d) := by
  have e1 : d.tdiv 1000000000 = 0 := by
    rw [Int.tdiv_eq_ediv h0 (by norm_num)]; omega
  have e3 : d.tmod 1000000000 = d := by rw [Int.tmod_def, e1]; ring
  unfold addNsec
  simp only [e1, e3]
  split_ifs <;> first | omega | rfl

theorem Add_of_mono_none (t : Time) (d : Int) (hm : t.mono = none) :
    (t.Add d).sec = addExt t.sec (addNsec t.nsec d).1 ∧
      (t.Add d).nsec = (addNsec t.nsec d).2 ∧
      (t.Add d).mono = none ∧ (t.Add d).loc = t.loc := by
  unfold Time.Add Time.addSec
  simp [hm]

theorem addExt_zero (s : Int) (h0 : -9223372036854775808 ≤ s) (h1 : s ≤ 9223372036854775807) :
    addExt s 0 = s := by
  unfold addExt wrapInt64
  simp only
  split_ifs with h h' <;> simp at h <;> omega

theorem UTC_fields (t : Time) :
    t.UTC.sec = t.sec ∧ t.UTC.nsec = t.nsec ∧ t.UTC.mono = none ∧ t.UTC.loc = Location.UTC := by
  unfold Time.UTC Time.setLoc Time.stripMono
  simp

/-- How `Round(time.Microsecond)` moves a time without a monotonic reading: back by the
sub-microsecond nanoseconds `r` when `r < 500`, forward by `1000 - r` otherwise. -/
theorem Round_Microsecond (t : Time) (hm : t.mono = none) :
    t.Round Microsecond =
      if t.nsec % 1000 < 500 then t.Add (-(t.nsec % 1000))
      else t.Add (1000 - t.nsec % 1000) := by
  have hs : t.stripMono = t := by
    apply Time.ext_fields <;> simp [Time.stripMono, hm]
  have hr0 : 0 ≤ t.nsec % 1000 := by omega
  have hr1 : t.nsec % 1000 < 1000 := by omega
  unfold Time.Round
  simp only [hs, div_Microsecond, lessThanHalf_Microsecond _ hr0 hr1]
  have hd : ¬ (Microsecond ≤ 0) := by unfold Microsecond; decide
  simp only [hd, if_false, decide_eq_true_eq]
  rfl

theorem SafeTime_cases (t : Time) :
    (SafeTime t).mono = none ∧ (SafeTime t).loc = Location.UTC ∧
      ((t.nsec % 1000 < 500 ∧ (SafeTime t).sec = t.sec ∧
          (SafeTime t).nsec = t.nsec - t.nsec % 1000) ∨
       (500 ≤ t.nsec % 1000 ∧ t.nsec + (1000 - t.nsec % 1000) < 1000000000 ∧
          (SafeTime t).sec = t.sec ∧ (SafeTime t).nsec = t.nsec + (1000 - t.nsec % 1000)) ∨
       (500 ≤ t.nsec % 1000 ∧ 1000000000 ≤ t.nsec + (1000 - t.nsec % 1000) ∧
          (SafeTime t).sec = addExt t.sec 1 ∧ (SafeTime t).nsec = 0)) := by
  obtain ⟨u1, u2, u3, u4⟩ := UTC_fields t
  have h0 := t.nsec_lo
  have h1 := t.nsec_hi
  have hl := t.sec_lo
  have hh := t.sec_hi
  unfold SafeTime
  rw [Round_Microsecond _ u3, u2]
  by_cases hr : t.nsec % 1000 < 500
  · simp only [hr, if_true]
    obtain ⟨a1, a2, a3, a4⟩ := Add_of_mono_none t.UTC (-(t.nsec % 1000)) u3
    rw [u2, addNsec_neg _ _ (by omega) (by omega) h1] at a1 a2
    rw [u1, addExt_zero _ hl hh] at a1
    exact ⟨a3, a4.trans u4, Or.inl ⟨trivial, a1, a2⟩⟩
  · simp only [hr, if_false]
    obtain ⟨a1, a2, a3, a4⟩ := Add_of_mono_none t.UTC (1000 - t.nsec % 1000) u3
    rw [u2, addNsec_pos _ _ (by omega) (by omega) h0 h1] at a1 a2
    rw [u1] at a1
    refine ⟨a3, a4.trans u4, Or.inr ?_⟩
    by_cases hc : t.nsec + (1000 - t.nsec % 1000) ≥ 1000000000
    · simp only [hc, if_true] at a1 a2
      exact Or.inr ⟨by omega, hc, a1, by rw [a2]; omega⟩
    · simp only [hc, if_false] at a1 a2
      rw [addExt_zero _ hl hh] at a1
      exact Or.inl ⟨by omega, by omega, a1, a2⟩

/-- Away from the last representable second, `SafeTime` rounds to the nearest microsecond,
halfway values going up. -/
theorem SafeTime_rounds_half_up (t : Time) (h : t.sec < 9223372036854775807) :
    (SafeTime t).unixNanos =
      if t.nsec % 1000 < 500 then t.unixNanos - t.nsec % 1000
      else t.unixNanos + (1000 - t.nsec % 1000) := by
  have hl := t.sec_lo
  have e1 : addExt t.sec 1 = t.sec + 1 := by
    unfold addExt wrapInt64
    simp only
    split_ifs with h1 h2 <;> simp at h1 <;> omega
  obtain ⟨-, -, c | c | c⟩ := SafeTime_cases t
  · obtain ⟨c1, c2, c3⟩ := c
    simp only [Time.unixNanos, c1, c2, c3, if_true]
    ring
  · obtain ⟨c1, -, c2, c3⟩ := c
    have : ¬ (t.nsec % 1000 < 500) := by omega
    simp only [Time.unixNanos, this, c2, c3, if_false]
    ring
  · obtain ⟨c1, c4, c2, c3⟩ := c
    have : ¬ (t.nsec % 1000 < 500) := by omega
    simp only [Time.unixNanos, this, c2, c3, if_false, e1]
    have h5 : t.nsec + (1000 - t.nsec % 1000) = 1000000000 := by
      have := t.nsec_hi
      omega
    linarith

/-- C6. `SafeTime` is idempotent: for every time `t`, `SafeTime (SafeTime t)` is the same
time value as `SafeTime t` (same seconds, nanoseconds and location). -/
theorem SafeTime_idempotent (t : Time) : SafeTime (SafeTime t) = SafeTime t := by
  have hz : (SafeTime t).nsec % 1000 = 0 := by
    have := t.nsec_lo
    obtain ⟨-, -, c | c | c⟩ := SafeTime_cases t
    · rw [c.2.2]; omega
    · rw [c.2.2.2]; omega
    · rw [c.2.2.2]; rfl
  obtain ⟨m1, l1, -⟩ := SafeTime_cases t
  obtain ⟨m2, l2, c | c | c⟩ := SafeTime_cases (SafeTime t)
  · apply Time.ext_fields
    · exact c.2.1
    · rw [c.2.2, hz]; ring
    · rw [m1, m2]
    · rw [l1, l2]
  · omega
  · omega

/-- C7. For every time `t`, in whatever location, `SafeTime t` is a whole number of
microseconds since the epoch (its nanosecond field is a multiple of 1000) and its location
is UTC. -/
theorem SafeTime_whole_microseconds_UTC (t : Time) :
    (SafeTime t).nsec % 1000 = 0 ∧ (SafeTime t).unixNanos % 1000 = 0 ∧
      (SafeTime t).loc = Location.UTC := by
  have hz : (SafeTime t).nsec % 1000 = 0 := by
    have := t.nsec_lo
    obtain ⟨-, -, c | c | c⟩ := SafeTime_cases t
    · rw [c.2.2]; omega
    · rw [c.2.2.2]; omega
    · rw [c.2.2.2]; rfl
  refine ⟨hz, ?_, (SafeTime_cases t).2.1⟩
  unfold Time.unixNanos
  omega

/-- C8 (the code at a failing input). At a time 999 nanoseconds past a microsecond,
`SafeTime` returns the next microsecond: the result is one nanosecond after its argument,
not the microsecond at or before it. -/
theorem SafeTime_at_999_is_next_microsecond :
    timeAt999.nsec = 999 ∧ (SafeTime timeAt999).nsec = 1000 ∧
      (SafeTime timeAt999).sec = timeAt999.sec ∧
      (SafeTime timeAt999).unixNanos = timeAt999.unixNanos + 1 := by
  have h := SafeTime_rounds_half_up timeAt999 (by decide)
  obtain ⟨-, -, c | c | c⟩ := SafeTime_cases timeAt999
  · exact absurd c.1 (by decide)
  · refine ⟨rfl, ?_, c.2.2.1, ?_⟩
    · rw [c.2.2.2]; decide
    · rw [h]; decide
  · exact absurd c.2.1 (by decide)

/-! ## Theorems about the statement builder -/

theorem replaceLoop_cons_ne (pfx : String) (i : Nat) (c : Char) (l : List Char)
    (h : c ≠ '?') : replaceLoop pfx i (c :: l) = c :: replaceLoop pfx i l := by
  cases l with
  | nil => simp [replaceLoop, h]
  | cons c2 l => simp [replaceLoop, h]

theorem replaceLoop_clean (pfx : String) (i : Nat) (a l : List Char) (h : '?' ∉ a) :
    replaceLoop pfx i (a ++ l) = a ++ replaceLoop pfx i l := by
  induction a with
  | nil => rfl
  | cons c a ih =>
    simp only [List.mem_cons, not_or] at h
    rw [List.cons_append, replaceLoop_cons_ne pfx i c _ (fun e => h.1 e.symm), ih h.2]
    rfl

theorem replaceLoop_question (pfx : String) (i : Nat) (c2 : Char) (l : List Char)
    (h : c2 ≠ '?') :
    replaceLoop pfx i ('?' :: c2 :: l) =
      (pfx ++ toString (i + 1)).toList ++ replaceLoop pfx (i + 1) (c2 :: l) := by
  simp [replaceLoop, h]

theorem replaceFrom_clean (pfx : String) (i : Nat) (a r : String) (h : '?' ∉ a.toList) :
    replaceFrom pfx i (a ++ r) = a ++ replaceFrom pfx i r := by
  apply String.ext
  simp only [replaceFrom, String.toList, String.data_append]
  exact replaceLoop_clean pfx i a.data r.data h

theorem replaceFrom_no_question (pfx : String) (i : Nat) (a : String) (h : '?' ∉ a.toList) :
    replaceFrom pfx i a = a := by
  have := replaceFrom_clean pfx i a "" h
  rw [String.append_empty] at this
  rw [this]
  show a ++ String.mk (replaceLoop pfx i []) = a
  simp [replaceLoop]

theorem replaceFrom_question (pfx : String) (i : Nat) (c2 : Char) (r : String)
    (h : c2 ≠ '?') :
    replaceFrom pfx i ("?" ++ (String.singleton c2 ++ r)) =
      pfx ++ toString (i + 1) ++ replaceFrom pfx (i + 1) (String.singleton c2 ++ r) := by
  apply String.ext
  simp only [replaceFrom, String.toList, String.data_append]
  exact replaceLoop_question pfx i c2 r.data h

theorem Join_cons_cons (a b : String) (rest : List String) (sep : String) :
    Join (a :: b :: rest) sep = a ++ sep ++ Join (b :: rest) sep := rfl

/-- Replacing the placeholders of a parenthesised group of `n + 1` question marks numbers
them consecutively. -/
theorem replaceFrom_questions (i n : Nat) :
    replaceFrom "$" i (Join (List.replicate (n + 1) "?") "," ++ ")") =
      Join (dollars i (n + 1)) "," ++ ")" := by
  induction n generalizing i with
  | zero =>
    have e : Join (List.replicate (0 + 1) "?") "," ++ ")" =
        "?" ++ (String.singleton ')' ++ "") := by decide
    rw [e, replaceFrom_question "$" i ')' "" (by decide)]
    rw [replaceFrom_no_question "$" (i + 1) _ (by decide)]
    simp [dollars, Join, String.singleton]
    rfl
  | succ n ih =>
    have e : Join (List.replicate (n + 1 + 1) "?") "," ++ ")" =
        "?" ++ (String.singleton ',' ++ (Join (List.replicate (n + 1) "?") "," ++ ")")) := by
      rw [List.replicate_succ, List.replicate_succ, Join_cons_cons, ← List.replicate_succ]
      simp only [String.append_assoc]
      rfl
    rw [e, replaceFrom_question "$" i ',' _ (by decide)]
    rw [replaceFrom_clean "$" (i + 1) (String.singleton ',') _ (by decide), ih (i + 1)]
    show _ = Join (("$" ++ toString (i + 1)) :: dollars (i + 1) (n + 1)) "," ++ ")"
    rw [show dollars (i + 1) (n + 1) =
      ("$" ++ toString (i + 1 + 1)) :: dollars (i + 1 + 1) n from rfl, Join_cons_cons]
    simp only [String.append_assoc]
    rfl

theorem Join_clean (xs : List String) (h : ∀ x ∈ xs, '?' ∉ x.toList) :
    '?' ∉ (Join xs ",").toList := by
  induction xs with
  | nil => decide
  | cons a rest ih =>
    cases rest with
    | nil => simpa [Join] using h a (by simp)
    | cons b rest =>
      rw [Join_cons_cons]
      have h1 := h a (by simp)
      have h2 := ih (fun x hx => h x (by simp [hx]))
      simp only [String.toList, String.data_append, List.mem_append, not_or] at *
      exact ⟨⟨h1, by decide⟩, h2⟩

theorem valueStrings_plain {V : Type} (dyn : Dyn V) (vs : List V)
    (h : ∀ v ∈ vs, dyn.sqlizer v = none) :
    valueStrings dyn vs = Except.ok (List.replicate vs.length "?", vs) := by
  induction vs with
  | nil => rfl
  | cons v rest ih =>
    have h1 := h v (by simp)
    have h2 := ih (fun x hx => h x (by simp [hx]))
    simp [valueStrings, h1, h2, List.replicate_succ]

theorem dollars_eq_range (i n : Nat) :
    dollars i n = (List.range n).map (fun k => "$" ++ toString (i + k + 1)) := by
  induction n generalizing i with
  | zero => rfl
  | succ n ih =>
    rw [List.range_succ_eq_map, dollars, ih]
    simp only [List.map_cons, List.map_map, Nat.add_zero]
    congr 1
    apply List.map_congr_left
    intro k _
    simp only [Function.comp]
    congr 2
    omega

theorem rangeRow_eq {V : Type} (row : DBRow V) :
    rangeRow row = (row.entries.map Prod.fst, row.entries.map Prod.snd) := by
  have h : ∀ (es : List (String × V)) (cs : List String) (vs : List V),
      es.foldl (fun acc kv => (acc.1 ++ [kv.1], acc.2 ++ [kv.2])) (cs, vs) =
        (cs ++ es.map Prod.fst, vs ++ es.map Prod.snd) := by
    intro es
    induction es with
    | nil => intro cs vs; simp
    | cons e es ih => intro cs vs; simp [List.foldl, ih]
  unfold rangeRow
  rw [h]
  simp

theorem length_ne_zero_of_ne_empty (s : String) (h : s ≠ "") : ¬ (s.length = 0) := by
  intro h0
  apply h
  apply String.ext
  have : s.data.length = 0 := h0
  exact List.length_eq_zero.mp this

/-- The statement built for a row with at least one column, when neither the table name nor
a column name contains a question mark and no value is a `Sqlizer`. -/
theorem rowToSql_plain {V : Type} (dyn : Dyn V) (table : String) (row : DBRow V)
    (htable : table ≠ "") (hq : '?' ∉ table.toList)
    (hcols : ∀ kv ∈ row.entries, '?' ∉ kv.1.toList)
    (hplain : ∀ kv ∈ row.entries, dyn.sqlizer kv.2 = none)
    (hne : row.entries ≠ []) :
    rowToSql dyn table row =
      Except.ok
        ("INSERT INTO " ++ table ++ " (" ++ Join (row.entries.map Prod.fst) "," ++
            ") VALUES (" ++ Join (dollars 0 row.entries.length) "," ++ ")",
          row.entries.map Prod.snd) := by
  obtain ⟨n, hn⟩ : ∃ n, row.entries.length = n + 1 := by
    cases he : row.entries with
    | nil => exact absurd he hne
    | cons e es => exact ⟨es.length, by simp⟩
  have hv : valueStrings dyn (row.entries.map Prod.snd) =
      Except.ok (List.replicate (n + 1) "?", row.entries.map Prod.snd) := by
    rw [valueStrings_plain dyn _ (by
      intro v hv
      obtain ⟨kv, hkv, rfl⟩ := List.mem_map.mp hv
      exact hplain kv hkv)]
    simp [hn]
  have hc : 0 < (row.entries.map Prod.fst).length := by simp [hn]
  have hj : '?' ∉ (Join (row.entries.map Prod.fst) ",").toList :=
    Join_clean _ (by
      intro x hx
      obtain ⟨kv, hkv, rfl⟩ := List.mem_map.mp hx
      exact hcols kv hkv)
  simp only [rowToSql, rangeRow_eq, ToSql, Insert, InsertBuilder.PlaceholderFormat,
    InsertBuilder.Values, InsertBuilder.Columns, List.nil_append, List.length_singleton,
    length_ne_zero_of_ne_empty table htable, if_false, one_ne_zero, appendValuesToSQL,
    valuesStrings, hv, hc, gt_iff_lt, if_true, Join, List.append_nil,
    PlaceholderFormat.ReplacePlaceholders, replacePositionalPlaceholders, hn]
  have hA : '?' ∉ ("INSERT INTO " ++ table ++ " (" ++ Join (row.entries.map Prod.fst) "," ++
      ") VALUES (").toList := by
    simp only [String.toList, String.data_append, List.mem_append, not_or]
    exact ⟨⟨⟨⟨by decide, hq⟩, by decide⟩, hj⟩, by decide⟩
  have e1 : "INSERT " ++ "INTO " ++ table ++ " " ++
        ("(" ++ Join (row.entries.map Prod.fst) "," ++ ") ") ++
        ("VALUES " ++ ("(" ++ Join (List.replicate (n + 1) "?") "," ++ ")")) =
      ("INSERT INTO " ++ table ++ " (" ++ Join (row.entries.map Prod.fst) "," ++
        ") VALUES (") ++ (Join (List.replicate (n + 1) "?") "," ++ ")") := by
    rw [show "INSERT INTO " = "INSERT " ++ "INTO " from rfl,
      show " (" = " " ++ "(" from rfl,
      show ") VALUES (" = ") " ++ ("VALUES " ++ "(") from rfl]
    simp only [String.append_assoc]
  rw [e1, replaceFrom_clean "$" 0 _ _ hA, replaceFrom_questions 0 n]
  simp only [String.append_assoc]

/-- The statement built for a row with no columns: no error, no column list, an empty group
of values and no arguments. -/
theorem rowToSql_empty {V : Type} (dyn : Dyn V) (table : String) (row : DBRow V)
    (htable : table ≠ "") (hq : '?' ∉ table.toList) (hrow : row.entries = []) :
    rowToSql dyn table row = Except.ok ("INSERT INTO " ++ table ++ " VALUES ()", []) := by
  simp only [rowToSql, rangeRow_eq, hrow, List.map_nil, ToSql, Insert,
    InsertBuilder.PlaceholderFormat, InsertBuilder.Values, InsertBuilder.Columns,
    List.nil_append, List.length_singleton, length_ne_zero_of_ne_empty table htable, if_false,
    one_ne_zero, appendValuesToSQL, valuesStrings, valueStrings, List.length_nil, gt_iff_lt,
    lt_self_iff_false, Join, List.append_nil, PlaceholderFormat.ReplacePlaceholders,
    replacePositionalPlaceholders]
  have e1 : "INSERT " ++ "INTO " ++ table ++ " " ++ "" ++ ("VALUES " ++ ("(" ++ "" ++ ")")) =
      "INSERT INTO " ++ table ++ " VALUES ()" := by
    rw [show "INSERT INTO " = "INSERT " ++ "INTO " from rfl,
      show " VALUES ()" = " " ++ "" ++ ("VALUES " ++ ("(" ++ "" ++ ")")) from rfl]
    simp only [String.append_assoc]
  have hA : '?' ∉ ("INSERT INTO " ++ table ++ " VALUES ()").toList := by
    simp only [String.toList, String.data_append, List.mem_append, not_or]
    exact ⟨⟨by decide, hq⟩, by decide⟩
  rw [e1, replaceFrom_no_question "$" 0 _ hA]

theorem mem_insertByKey {V : Type} (e x : String × V) (xs : List (String × V)) :
    x ∈ insertByKey e xs ↔ x = e ∨ x ∈ xs := by
  induction xs with
  | nil => simp [insertByKey]
  | cons y ys ih =>
    unfold insertByKey
    split_ifs
    · simp only [List.mem_cons, ih]
      tauto
    · simp only [List.mem_cons]

theorem mem_sortByKey {V : Type} (x : String × V) (es : List (String × V)) :
    x ∈ sortByKey es ↔ x ∈ es := by
  induction es with
  | nil => simp [sortByKey]
  | cons e es ih => simp [sortByKey, mem_insertByKey, ih]

/-- A joined string contains each of the joined elements. -/
theorem Join_contains (xs : List String) (sep x : String) (h : x ∈ xs) :
    ∃ a b, Join xs sep = a ++ x ++ b := by
  induction xs with
  | nil => simp at h
  | cons y ys ih =>
    cases ys with
    | nil =>
      simp only [List.mem_singleton] at h
      subst h
      exact ⟨"", "", by simp [Join]⟩
    | cons z zs =>
      rw [Join_cons_cons]
      rcases List.mem_cons.mp h with h | h
      · subst h
        exact ⟨"", sep ++ Join (z :: zs) sep, by simp [String.append_assoc]⟩
      · obtain ⟨a, b, hab⟩ := ih h
        exact ⟨y ++ sep ++ a, b, by rw [hab]; simp [String.append_assoc]⟩

/-- The message built for a row contains the table name and, for every column of the row,
the column name with the rendering of its value. -/
theorem Sprintf_table_row_contains {V : Type} (dyn : Dyn V) (table : String) (row : DBRow V) :
    (∃ a b, Sprintf_table_row dyn table row = a ++ table ++ b) ∧
      ∀ kv ∈ row.entries,
        ∃ a b, Sprintf_table_row dyn table row = a ++ (kv.1 ++ ":" ++ dyn.format kv.2) ++ b := by
  constructor
  · exact ⟨"table: ", "\nrow: " ++ formatRow dyn row, by
      simp [Sprintf_table_row, String.append_assoc]⟩
  · intro kv hkv
    have hmem : (kv.1 ++ ":" ++ dyn.format kv.2) ∈
        (sortByKey row.entries).map (fun e => e.1 ++ ":" ++ dyn.format e.2) :=
      List.mem_map.mpr ⟨kv, (mem_sortByKey kv row.entries).mpr hkv, rfl⟩
    obtain ⟨a, b, hab⟩ := Join_contains _ " " _ hmem
    exact ⟨"table: " ++ table ++ "\nrow: " ++ "map[" ++ a, b ++ "]", by
      rw [Sprintf_table_row, formatRow, hab]
      simp only [String.append_assoc]⟩

theorem zip_fst_snd {V : Type} (es : List (String × V)) :
    (es.map Prod.fst).zip (es.map Prod.snd) = es := by
  induction es with
  | nil => rfl
  | cons e es ih => simp [ih]

/-! ## Theorems about the loader -/

section Loader

variable {Ctx D V : Type}

theorem insertRows_eq_insertBatch (dyn : Dyn V) (pool : Pool Ctx D V) (ctx : Ctx)
    (table : String) (rows : List (DBRow V)) (s : DB Ctx D V) :
    insertRows dyn pool ctx table rows s =
      insertBatch dyn pool ctx (rows.map (fun row => (table, row))) s := by
  induction rows generalizing s with
  | nil => rfl
  | cons row rest ih =>
    simp only [insertRows, insertBatch, List.map]
    cases rowToSql dyn table row with
    | error err => rfl
    | ok q =>
      obtain ⟨sql, args⟩ := q
      simp only
      rcases Tx.Exec pool ctx sql args s with ⟨_ | err, s2⟩
      · exact ih s2
      · rfl

theorem insertBatch_append (dyn : Dyn V) (pool : Pool Ctx D V) (ctx : Ctx)
    (xs ys : List (String × DBRow V)) (s : DB Ctx D V) :
    insertBatch dyn pool ctx (xs ++ ys) s =
      match insertBatch dyn pool ctx xs s with
      | (some f, s2) => (some f, s2)
      | (none, s2) => insertBatch dyn pool ctx ys s2 := by
  induction xs generalizing s with
  | nil => rfl
  | cons p rest ih =>
    simp only [List.cons_append, insertBatch]
    cases rowToSql dyn p.1 p.2 with
    | error err => rfl
    | ok q =>
      obtain ⟨sql, args⟩ := q
      simp only
      rcases Tx.Exec pool ctx sql args s with ⟨_ | err, s2⟩
      · exact ih s2
      · rfl

theorem insertTables_eq_insertBatch (dyn : Dyn V) (pool : Pool Ctx D V) (ctx : Ctx)
    (tables : List (DBTableRows V)) (s : DB Ctx D V) :
    insertTables dyn pool ctx tables s = insertBatch dyn pool ctx (batchRows tables) s := by
  induction tables generalizing s with
  | nil => rfl
  | cons rows rest ih =>
    simp only [insertTables, batchRows, insertBatch_append, insertDBRowsTx,
      insertRows_eq_insertBatch]
    rcases insertBatch dyn pool ctx (rows.Rows.map (fun row => (rows.Table, row))) s
      with ⟨_ | f, s2⟩
    · exact ih s2
    · rfl

theorem insertBatch_success (dyn : Dyn V) (pool : Pool Ctx D V) (ctx : Ctx)
    (xs : List (String × DBRow V)) (stmts : List (String × List V)) (d d2 : D)
    (s : DB Ctx D V) (htx : s.tx = some d)
    (hbuild : xs.map (fun p => rowToSql dyn p.1 p.2) = stmts.map Except.ok)
    (hexec : runStmts pool ctx stmts d = Except.ok d2) :
    insertBatch dyn pool ctx xs s =
      (none, { s with tx := some d2, log := s.log ++ stmts.map (execCall ctx) }) := by
  induction xs generalizing stmts d s with
  | nil =>
    cases stmts with
    | nil =>
      simp only [runStmts, Except.ok.injEq] at hexec
      subst hexec
      cases s
      simp_all [insertBatch]
    | cons q qs => simp at hbuild
  | cons p rest ih =>
    cases stmts with
    | nil => simp at hbuild
    | cons q qs =>
      simp only [List.map, List.cons.injEq] at hbuild
      obtain ⟨hq, hrest⟩ := hbuild
      simp only [runStmts] at hexec
      cases hx : pool.exec ctx d q.1 q.2 with
      | error err => simp [hx] at hexec
      | ok d3 =>
        simp only [hx] at hexec
        simp only [insertBatch, hq, Tx.Exec, htx, hx]
        rw [ih qs d3 _ rfl hrest hexec]
        simp [execCall]

theorem insertBatch_failure (dyn : Dyn V) (pool : Pool Ctx D V) (ctx : Ctx)
    (pre post : List (String × DBRow V)) (bad : String × DBRow V)
    (stmts : List (String × List V)) (d d1 : D) (e : Err)
    (s : DB Ctx D V) (htx : s.tx = some d)
    (hbuild : pre.map (fun p => rowToSql dyn p.1 p.2) = stmts.map Except.ok)
    (hexec : runStmts pool ctx stmts d = Except.ok d1)
    (hbad : rowError dyn pool ctx d1 bad = some e) :
    insertBatch dyn pool ctx (pre ++ bad :: post) s =
      (some { err := e, msgAndArgs := [Sprintf_table_row dyn bad.1 bad.2] },
        { s with
          tx := some d1
          log := s.log ++ stmts.map (execCall ctx) ++ execCallOfRow dyn ctx bad }) := by
  rw [insertBatch_append, insertBatch_success dyn pool ctx pre stmts d d1 s htx hbuild hexec]
  simp only [insertBatch]
  unfold rowError at hbad
  unfold execCallOfRow
  cases hb : rowToSql dyn bad.1 bad.2 with
  | error err =>
    simp only [hb, Option.some.injEq] at hbad
    simp [NoError, hbad]
  | ok q =>
    simp only [hb] at hbad
    cases hx : pool.exec ctx d1 q.1 q.2 with
    | ok d3 => simp [hx] at hbad
    | error err =>
      simp only [hx, Option.some.injEq] at hbad
      simp [Tx.Exec, hx, NoError, hbad, execCall]

/-- Every batch either goes through row by row, or has a first row that fails. -/
theorem batch_cases (dyn : Dyn V) (pool : Pool Ctx D V) (ctx : Ctx)
    (xs : List (String × DBRow V)) (d : D) :
    (∃ (stmts : List (String × List V)) (d2 : D),
        xs.map (fun p => rowToSql dyn p.1 p.2) = stmts.map Except.ok ∧
          runStmts pool ctx stmts d = Except.ok d2) ∨
    (∃ (pre post : List (String × DBRow V)) (bad : String × DBRow V)
        (stmts : List (String × List V)) (d1 : D) (e : Err),
        xs = pre ++ bad :: post ∧
          pre.map (fun p => rowToSql dyn p.1 p.2) = stmts.map Except.ok ∧
          runStmts pool ctx stmts d = Except.ok d1 ∧
          rowError dyn pool ctx d1 bad = some e) := by
  induction xs generalizing d with
  | nil => exact Or.inl ⟨[], d, rfl, rfl⟩
  | cons p rest ih =>
    cases hb : rowToSql dyn p.1 p.2 with
    | error err =>
      exact Or.inr ⟨[], rest, p, [], d, err, rfl, rfl, rfl, by simp [rowError, hb]⟩
    | ok q =>
      cases hx : pool.exec ctx d q.1 q.2 with
      | error err =>
        exact Or.inr ⟨[], rest, p, [], d, err, rfl, rfl, rfl, by simp [rowError, hb, hx]⟩
      | ok d3 =>
        rcases ih d3 with ⟨stmts, d2, h1, h2⟩ | ⟨pre, post, bad, stmts, d1, e, h1, h2, h3, h4⟩
        · exact Or.inl ⟨q :: stmts, d2, by simp [hb, h1], by simp [runStmts, hx, h2]⟩
        · exact Or.inr ⟨p :: pre, post, bad, q :: stmts, d1, e, by simp [h1],
            by simp [hb, h2], by simp [runStmts, hx, h3], h4⟩

/-- A call on which beginning the transaction fails. -/
theorem call_begin_failure (dyn : Dyn V) (pool : Pool Ctx D V) (ctx : Ctx)
    (tables : List (DBTableRows V)) (s : DB Ctx D V) (e : Err)
    (hbegin : pool.begin ctx s.committed = some e) :
    InsertDBTablesWithCtx dyn pool ctx tables s =
      (some { err := e, msgAndArgs := [] }, { s with log := s.log ++ [Call.Begin ctx] }) := by
  simp [InsertDBTablesWithCtx, Pool.Begin, hbegin, NoError]

/-- A call on which every row goes through; the commit decides the outcome. -/
theorem call_rows_succeed (dyn : Dyn V) (pool : Pool Ctx D V) (ctx : Ctx)
    (tables : List (DBTableRows V)) (stmts : List (String × List V)) (d2 : D)
    (s : DB Ctx D V) (hbegin : pool.begin ctx s.committed = none)
    (hbuild : (batchRows tables).map (fun p => rowToSql dyn p.1 p.2) = stmts.map Except.ok)
    (hexec : runStmts pool ctx stmts s.committed = Except.ok d2) :
    InsertDBTablesWithCtx dyn pool ctx tables s =
      (NoError (pool.commit ctx d2) [],
        { committed := if pool.commit ctx d2 = none then d2 else s.committed
          tx := none
          log := s.log ++ [Call.Begin ctx] ++ stmts.map (execCall ctx) ++
            [Call.Commit ctx, Call.Rollback ctx] }) := by
  simp only [InsertDBTablesWithCtx, Pool.Begin, hbegin, insertTables_eq_insertBatch]
  rw [insertBatch_success dyn pool ctx (batchRows tables) stmts s.committed d2 _ rfl hbuild hexec]
  cases hc : pool.commit ctx d2 with
  | none => simp [Tx.Commit, hc, Tx.Rollback, NoError]
  | some err => simp [Tx.Commit, hc, Tx.Rollback, NoError]

/-- A call on which a row fails, all rows before it having gone through. -/
theorem call_row_failure (dyn : Dyn V) (pool : Pool Ctx D V) (ctx : Ctx)
    (tables : List (DBTableRows V)) (pre post : List (String × DBRow V))
    (bad : String × DBRow V) (stmts : List (String × List V)) (d1 : D) (e : Err)
    (s : DB Ctx D V) (hbegin : pool.begin ctx s.committed = none)
    (hsplit : batchRows tables = pre ++ bad :: post)
    (hbuild : pre.map (fun p => rowToSql dyn p.1 p.2) = stmts.map Except.ok)
    (hexec : runStmts pool ctx stmts s.committed = Except.ok d1)
    (hbad : rowError dyn pool ctx d1 bad = some e) :
    InsertDBTablesWithCtx dyn pool ctx tables s =
      (some { err := e, msgAndArgs := [Sprintf_table_row dyn bad.1 bad.2] },
        { committed := s.committed
          tx := none
          log := s.log ++ [Call.Begin ctx] ++ stmts.map (execCall ctx) ++
            execCallOfRow dyn ctx bad ++ [Call.Rollback ctx] }) := by
  simp only [InsertDBTablesWithCtx, Pool.Begin, hbegin, insertTables_eq_insertBatch, hsplit]
  rw [insertBatch_failure dyn pool ctx pre post bad stmts s.committed d1 e _ rfl hbuild hexec
    hbad]
  simp [Tx.Rollback]

/-- A row that fails, after rows that went through, rules out that every step succeeds. -/
theorem row_failure_not_AllStepsSucceed (dyn : Dyn V) (pool : Pool Ctx D V) (ctx : Ctx)
    (tables : List (DBTableRows V)) (pre post : List (String × DBRow V))
    (bad : String × DBRow V) (stmts : List (String × List V)) (d d1 : D) (e : Err)
    (hsplit : batchRows tables = pre ++ bad :: post)
    (hbuild : pre.map (fun p => rowToSql dyn p.1 p.2) = stmts.map Except.ok)
    (hexec : runStmts pool ctx stmts d = Except.ok d1)
    (hbad : rowError dyn pool ctx d1 bad = some e) :
    ¬ AllStepsSucceed dyn pool ctx tables d := by
  rintro ⟨hb, stmts2, d2, h1, h2, hc⟩
  have A := call_rows_succeed dyn pool ctx tables stmts2 d2
    { committed := d, tx := none, log := [] } hb h1 h2
  have B := call_row_failure dyn pool ctx tables pre post bad stmts d1 e
    { committed := d, tx := none, log := [] } hb hsplit hbuild hexec hbad
  rw [A, hc] at B
  simp [NoError] at B

theorem insertBatch_log (dyn : Dyn V) (pool : Pool Ctx D V) (ctx : Ctx)
    (xs : List (String × DBRow V)) (s : DB Ctx D V) :
    ∃ rest, (insertBatch dyn pool ctx xs s).2.log = s.log ++ rest := by
  induction xs generalizing s with
  | nil => exact ⟨[], by simp [insertBatch]⟩
  | cons p rest ih =>
    simp only [insertBatch]
    cases rowToSql dyn p.1 p.2 with
    | error err => exact ⟨[], by simp⟩
    | ok q =>
      obtain ⟨sql, args⟩ := q
      simp only
      have hx : (Tx.Exec pool ctx sql args s).2.log = s.log ++ [Call.Exec ctx sql args] := by
        unfold Tx.Exec
        cases s.tx with
        | none => rfl
        | some pending =>
          simp only
          cases pool.exec ctx pending sql args <;> rfl
      rcases hr : Tx.Exec pool ctx sql args s with ⟨_ | err, s2⟩
      · rw [hr] at hx
        obtain ⟨more, hmore⟩ := ih s2
        exact ⟨Call.Exec ctx sql args :: more, by
          simp only [hmore]
          simp only [] at hx
          rw [hx]
          simp⟩
      · rw [hr] at hx
        exact ⟨[Call.Exec ctx sql args], hx⟩

theorem commitAndRollback_log (pool : Pool Ctx D V) (ctx : Ctx)
    (r : Option Failure × DB Ctx D V) :
    ∃ rest, (commitAndRollback pool ctx r).2.log = r.2.log ++ rest := by
  obtain ⟨f, s2⟩ := r
  cases f with
  | some f =>
    simp only [commitAndRollback, Tx.Rollback]
    cases s2.tx <;> exact ⟨[Call.Rollback ctx], rfl⟩
  | none =>
    simp only [commitAndRollback, Tx.Commit]
    cases s2.tx with
    | none => exact ⟨[Call.Commit ctx, Call.Rollback ctx], by simp [Tx.Rollback]⟩
    | some pending =>
      simp only
      cases pool.commit ctx pending <;>
        exact ⟨[Call.Commit ctx, Call.Rollback ctx], by simp [Tx.Rollback]⟩

/-- A call on which a row goes through, all rows before it having gone through: the call
goes on with the rows after it. -/
theorem call_row_goes_through (dyn : Dyn V) (pool : Pool Ctx D V) (ctx : Ctx)
    (tables : List (DBTableRows V)) (pre post : List (String × DBRow V))
    (x : String × DBRow V) (stmts : List (String × List V)) (q : String × List V)
    (d1 d2 : D) (s : DB Ctx D V) (hbegin : pool.begin ctx s.committed = none)
    (hsplit : batchRows tables = pre ++ x :: post)
    (hbuild : pre.map (fun p => rowToSql dyn p.1 p.2) = stmts.map Except.ok)
    (hexec : runStmts pool ctx stmts s.committed = Except.ok d1)
    (hx : rowToSql dyn x.1 x.2 = Except.ok q)
    (hq : pool.exec ctx d1 q.1 q.2 = Except.ok d2) :
    InsertDBTablesWithCtx dyn pool ctx tables s =
      commitAndRollback pool ctx
        (insertBatch dyn pool ctx post
          { committed := s.committed
            tx := some d2
            log := s.log ++ [Call.Begin ctx] ++ stmts.map (execCall ctx) ++
              [Call.Exec ctx q.1 q.2] }) := by
  simp only [InsertDBTablesWithCtx, Pool.Begin, hbegin, insertTables_eq_insertBatch, hsplit]
  rw [insertBatch_append,
    insertBatch_success dyn pool ctx pre stmts s.committed d1 _ rfl hbuild hexec]
  simp only [insertBatch, hx, Tx.Exec, hq, commitAndRollback]

end Loader

/-! ## The claims about the loader -/

/-- C2. When beginning the transaction, every statement construction, every execution and
the commit succeed, the call reports no failure, makes exactly one `Exec` call per row of
the batch, in batch order, between `Begin` and `Commit`, and leaves as committed contents
the result of all the statements; the deferred rollback that follows the commit finds the
transaction closed and undoes nothing. -/
theorem InsertDBTablesWithCtx_commits_every_row {Ctx D V : Type} (dyn : Dyn V)
    (pool : Pool Ctx D V) (ctx : Ctx) (tables : List (DBTableRows V))
    (stmts : List (String × List V)) (d2 : D) (s : DB Ctx D V)
    (hbegin : pool.begin ctx s.committed = none)
    (hbuild : (batchRows tables).map (fun p => rowToSql dyn p.1 p.2) = stmts.map Except.ok)
    (hexec : runStmts pool ctx stmts s.committed = Except.ok d2)
    (hcommit : pool.commit ctx d2 = none) :
    InsertDBTablesWithCtx dyn pool ctx tables s =
        (none,
          { committed := d2
            tx := none
            log := s.log ++ [Call.Begin ctx] ++ stmts.map (execCall ctx) ++
              [Call.Commit ctx, Call.Rollback ctx] }) ∧
      stmts.length = (batchRows tables).length := by
  constructor
  · rw [call_rows_succeed dyn pool ctx tables stmts d2 s hbegin hbuild hexec, hcommit]
    simp [NoError]
  · have := congrArg List.length hbuild
    simpa using this.symm

theorem InsertDBTablesWithCtx_commits_every_row_witness :
    InsertDBTablesWithCtx textDyn storePool () goodBatch emptyDB =
        (none,
          { committed := goodStmts
            tx := none
            log := [Call.Begin (),
              Call.Exec () "INSERT INTO orders (id,name) VALUES ($1,$2)" ["1", "alice"],
              Call.Exec () "INSERT INTO order_items (name,id) VALUES ($1,$2)" ["alice", "1"],
              Call.Exec () "INSERT INTO order_items VALUES ()" [],
              Call.Commit (), Call.Rollback ()] }) ∧
      goodStmts.length = (batchRows goodBatch).length :=
  InsertDBTablesWithCtx_commits_every_row textDyn storePool () goodBatch goodStmts goodStmts
    emptyDB (by decide) (by rfl) (by rfl) (by decide)

/-- C10. Once the statement of a row cannot be built or its execution fails, all rows
before it having gone through, the calls made are `Begin`, one `Exec` per preceding row in
order, at most the one failing `Exec`, and the deferred `Rollback`: no row is retried, no
later row or table is executed, no commit is attempted, and a failure is reported. -/
theorem InsertDBTablesWithCtx_fail_fast {Ctx D V : Type} (dyn : Dyn V)
    (pool : Pool Ctx D V) (ctx : Ctx) (tables : List (DBTableRows V))
    (pre post : List (String × DBRow V)) (bad : String × DBRow V)
    (stmts : List (String × List V)) (d1 : D) (e : Err) (s : DB Ctx D V)
    (hbegin : pool.begin ctx s.committed = none)
    (hsplit : batchRows tables = pre ++ bad :: post)
    (hbuild : pre.map (fun p => rowToSql dyn p.1 p.2) = stmts.map Except.ok)
    (hexec : runStmts pool ctx stmts s.committed = Except.ok d1)
    (hbad : rowError dyn pool ctx d1 bad = some e) :
    (InsertDBTablesWithCtx dyn pool ctx tables s).2.log =
        s.log ++ [Call.Begin ctx] ++ stmts.map (execCall ctx) ++ execCallOfRow dyn ctx bad ++
          [Call.Rollback ctx] ∧
      stmts.length = pre.length ∧
      (execCallOfRow dyn ctx bad).length ≤ 1 ∧
      (∀ c, Call.Commit c ∉ ([Call.Begin ctx] ++ stmts.map (execCall ctx) ++
          execCallOfRow dyn ctx bad ++ [Call.Rollback ctx])) ∧
      (InsertDBTablesWithCtx dyn pool ctx tables s).1.isSome = true := by
  rw [call_row_failure dyn pool ctx tables pre post bad stmts d1 e s hbegin hsplit hbuild hexec
    hbad]
  refine ⟨rfl, ?_, ?_, ?_, rfl⟩
  · have := congrArg List.length hbuild
    simpa using this.symm
  · unfold execCallOfRow
    cases rowToSql dyn bad.1 bad.2 <;> simp
  · intro c hc
    simp only [List.mem_append, List.mem_cons, List.mem_map, List.not_mem_nil, or_false] at hc
    rcases hc with ((h | ⟨q, -, h⟩) | h) | h
    · cases h
    · cases h
    · unfold execCallOfRow at h
      cases hq : rowToSql dyn bad.1 bad.2 <;> simp [hq, execCall] at h
    · cases h

theorem InsertDBTablesWithCtx_fail_fast_witness :
    (InsertDBTablesWithCtx textDyn storePool () dupBatch emptyDB).2.log =
        [Call.Begin (),
          Call.Exec () "INSERT INTO orders (id,name) VALUES ($1,$2)" ["1", "alice"],
          Call.Exec () "INSERT INTO order_items (name,id) VALUES ($1,$2)" ["alice", "1"],
          Call.Exec () "INSERT INTO order_items (id) VALUES ($1)" ["dup"],
          Call.Rollback ()] ∧
      (InsertDBTablesWithCtx textDyn storePool () dupBatch emptyDB).1.isSome = true := by
  have h := InsertDBTablesWithCtx_fail_fast textDyn storePool () dupBatch
    [("orders", aliceRow), ("order_items", aliceRowSwapped)]
    [("order_items", aliceRow), ("later", aliceRow)] ("order_items", dupRow)
    dupStmtsBefore dupStmtsBefore "unique constraint violated" emptyDB
    (by decide) (by rfl) (by rfl) (by rfl) (by rfl)
  exact ⟨h.1, h.2.2.2.2⟩

/-- C1. Whenever not every step of a call succeeds (the begin, a statement construction, a
statement execution or the commit fails), the call reports a failure and the committed
contents of the database after the call are those before it: no row of the batch
persists. When the transaction had begun, the deferred rollback has closed it. -/
theorem InsertDBTablesWithCtx_atomic {Ctx D V : Type} (dyn : Dyn V)
    (pool : Pool Ctx D V) (ctx : Ctx) (tables : List (DBTableRows V)) (s : DB Ctx D V)
    (h : ¬ AllStepsSucceed dyn pool ctx tables s.committed) :
    (InsertDBTablesWithCtx dyn pool ctx tables s).1.isSome = true ∧
      (InsertDBTablesWithCtx dyn pool ctx tables s).2.committed = s.committed ∧
      (pool.begin ctx s.committed = none →
        (InsertDBTablesWithCtx dyn pool ctx tables s).2.tx = none) := by
  cases hb : pool.begin ctx s.committed with
  | some e =>
    rw [call_begin_failure dyn pool ctx tables s e hb]
    simp
  | none =>
    rcases batch_cases dyn pool ctx (batchRows tables) s.committed with
      ⟨stmts, d2, h1, h2⟩ | ⟨pre, post, bad, stmts, d1, e, h1, h2, h3, h4⟩
    · rw [call_rows_succeed dyn pool ctx tables stmts d2 s hb h1 h2]
      cases hc : pool.commit ctx d2 with
      | none => exact absurd ⟨hb, stmts, d2, h1, h2, hc⟩ h
      | some e => simp [NoError]
    · rw [call_row_failure dyn pool ctx tables pre post bad stmts d1 e s hb h1 h2 h3 h4]
      simp

theorem InsertDBTablesWithCtx_atomic_witness :
    (InsertDBTablesWithCtx textDyn storePool () dupBatch emptyDB).1.isSome = true ∧
      (InsertDBTablesWithCtx textDyn storePool () dupBatch emptyDB).2.committed = [] ∧
      (InsertDBTablesWithCtx textDyn storePool () dupBatch emptyDB).2.tx = none := by
  have h := InsertDBTablesWithCtx_atomic textDyn storePool () dupBatch emptyDB
    (row_failure_not_AllStepsSucceed textDyn storePool () dupBatch
      [("orders", aliceRow), ("order_items", aliceRowSwapped)]
      [("order_items", aliceRow), ("later", aliceRow)] ("order_items", dupRow)
      dupStmtsBefore [] dupStmtsBefore "unique constraint violated"
      (by rfl) (by rfl) (by rfl) (by rfl))
  exact ⟨h.1, h.2.1, h.2.2 (by decide)⟩

/-- C5. `InsertDBRowsWithCtx` on a `DBTableRows` value is `InsertDBTablesWithCtx` on the
one-element batch holding it: same failure or success, same database, same calls; and
`InsertDBRows` is `InsertDBTables` on that batch. -/
theorem InsertDBRows_eq_InsertDBTables_singleton {Ctx D V : Type} (dyn : Dyn V)
    (context : Context Ctx) (pool : Pool Ctx D V) (ctx : Ctx) (rows : DBTableRows V)
    (s : DB Ctx D V) :
    InsertDBRowsWithCtx dyn pool ctx rows s = InsertDBTablesWithCtx dyn pool ctx [rows] s ∧
      InsertDBRows dyn context pool rows s = InsertDBTables dyn context pool [rows] s :=
  ⟨rfl, rfl⟩

/-- C3 (the claim as stated fails). For the empty table name no statement is built. A
question mark in the table name or in a column name is replaced by a numbered placeholder,
so the statement names another table or column and the value placeholders start later
than `$1`. A `Sqlizer` value contributes its own SQL instead of a placeholder and is not
an argument, so two columns get one placeholder and the first argument belongs to the
second column. -/
theorem insert_statement_counterexample :
    rowToSql textDyn "" aliceRow = Except.error "insert statements must specify a table" ∧
      rowToSql textDyn "t?" aliceRow =
        Except.ok ("INSERT INTO t$1 (id,name) VALUES ($2,$3)", ["1", "alice"]) ∧
      rowToSql textDyn "users" questionRow =
        Except.ok ("INSERT INTO users (a$1) VALUES ($2)", ["x"]) ∧
      rowToSql exprDyn "users" nowRow =
        Except.ok ("INSERT INTO users (created,name) VALUES (NOW(),$1)", ["bob"]) :=
  ⟨by rfl, by rfl, by rfl, by rfl⟩

/-- C3 (amended). For a table name that is not empty, a row with at least one column,
no question mark in the table name or in a column name, and no `Sqlizer` among the values:
the statement built is `INSERT INTO table (columns) VALUES ($1,...,$n)`, its columns are the
keys of the row, each once, in the order of the iteration, its arguments are the values in
the same order, so that the i-th argument is the value of the i-th column; and a row with
the same entries visited in another order yields a statement of the same form with the same
column-to-value assignment. -/
theorem insert_statement_of_row {V : Type} (dyn : Dyn V) (table : String) (row : DBRow V)
    (htable : table ≠ "") (hq : '?' ∉ table.toList)
    (hcols : ∀ kv ∈ row.entries, '?' ∉ kv.1.toList)
    (hplain : ∀ kv ∈ row.entries, dyn.sqlizer kv.2 = none)
    (hne : row.entries ≠ []) :
    rowToSql dyn table row =
        Except.ok
          ("INSERT INTO " ++ table ++ " (" ++ Join (row.entries.map Prod.fst) "," ++
              ") VALUES (" ++
              Join ((List.range row.entries.length).map (fun k => "$" ++ toString (k + 1)))
                "," ++ ")",
            row.entries.map Prod.snd) ∧
      (row.entries.map Prod.fst).Nodup ∧
      (row.entries.map Prod.fst).zip (row.entries.map Prod.snd) = row.entries ∧
      ∀ row2 : DBRow V, row2.entries.Perm row.entries →
        rowToSql dyn table row2 =
            Except.ok
              ("INSERT INTO " ++ table ++ " (" ++ Join (row2.entries.map Prod.fst) "," ++
                  ") VALUES (" ++
                  Join ((List.range row2.entries.length).map
                    (fun k => "$" ++ toString (k + 1))) "," ++ ")",
                row2.entries.map Prod.snd) ∧
          ((row2.entries.map Prod.fst).zip (row2.entries.map Prod.snd)).Perm
            ((row.entries.map Prod.fst).zip (row.entries.map Prod.snd)) := by
  refine ⟨?_, row.nodup, zip_fst_snd _, ?_⟩
  · rw [rowToSql_plain dyn table row htable hq hcols hplain hne, dollars_eq_range]
    simp only [Nat.zero_add]
  · intro row2 hperm
    constructor
    · rw [rowToSql_plain dyn table row2 htable hq
        (fun kv hkv => hcols kv (hperm.subset hkv))
        (fun kv hkv => hplain kv (hperm.subset hkv))
        (fun h0 => hne (by
          have := hperm.length_eq
          rw [h0] at this
          exact List.length_eq_zero.mp this.symm)),
        dollars_eq_range]
      simp only [Nat.zero_add]
    · rw [zip_fst_snd, zip_fst_snd]
      exact hperm

theorem insert_statement_of_row_witness :
    rowToSql textDyn "users" aliceRow =
        Except.ok ("INSERT INTO users (id,name) VALUES ($1,$2)", ["1", "alice"]) ∧
      rowToSql textDyn "users" aliceRowSwapped =
        Except.ok ("INSERT INTO users (name,id) VALUES ($1,$2)", ["alice", "1"]) ∧
      ((aliceRowSwapped.entries.map Prod.fst).zip (aliceRowSwapped.entries.map Prod.snd)).Perm
        ((aliceRow.entries.map Prod.fst).zip (aliceRow.entries.map Prod.snd)) := by
  have h := insert_statement_of_row textDyn "users" aliceRow (by decide) (by decide)
    (by decide) (fun _ _ => rfl) (by decide)
  exact ⟨h.1, (h.2.2.2 aliceRowSwapped (by decide)).1, (h.2.2.2 aliceRowSwapped (by decide)).2⟩

/-- C9 (the claim as stated fails). For a batch whose only row has no columns, no
construction error is reported: `INSERT INTO t VALUES ()` is sent to the database, and on a
server that accepts it the call succeeds and the statement is committed. -/
theorem empty_row_counterexample :
    InsertDBTablesWithCtx textDyn storePool () [{ Table := "t", Rows := [emptyRow] }] emptyDB =
      (none,
        { committed := [("INSERT INTO t VALUES ()", [])]
          tx := none
          log := [Call.Begin (), Call.Exec () "INSERT INTO t VALUES ()" [], Call.Commit (),
            Call.Rollback ()] }) := by
  rfl

/-- C9 (amended). For every batch containing a row with no columns, in a table whose name
is not empty and has no question mark: building the statement of that row reports no
error, it is `INSERT INTO table VALUES ()` with no arguments; when the rows before it have
gone through, the call sends it with `Exec` right after their statements; when that
`Exec` returns an error the call fails with this error and the message of this row, and
otherwise the call goes on with the rows after it, the commit and the rollback. -/
theorem empty_row_statement_is_sent {Ctx D V : Type} (dyn : Dyn V) (pool : Pool Ctx D V)
    (ctx : Ctx) (tables : List (DBTableRows V)) (pre post : List (String × DBRow V))
    (table : String) (row : DBRow V) (stmts : List (String × List V)) (d1 : D)
    (s : DB Ctx D V)
    (htable : table ≠ "") (hq : '?' ∉ table.toList) (hrow : row.entries = [])
    (hbegin : pool.begin ctx s.committed = none)
    (hsplit : batchRows tables = pre ++ (table, row) :: post)
    (hbuild : pre.map (fun p => rowToSql dyn p.1 p.2) = stmts.map Except.ok)
    (hexec : runStmts pool ctx stmts s.committed = Except.ok d1) :
    rowToSql dyn table row = Except.ok ("INSERT INTO " ++ table ++ " VALUES ()", []) ∧
      (∃ rest, (InsertDBTablesWithCtx dyn pool ctx tables s).2.log =
        s.log ++ [Call.Begin ctx] ++ stmts.map (execCall ctx) ++
          [Call.Exec ctx ("INSERT INTO " ++ table ++ " VALUES ()") []] ++ rest) ∧
      (∀ e, pool.exec ctx d1 ("INSERT INTO " ++ table ++ " VALUES ()") [] = Except.error e →
        InsertDBTablesWithCtx dyn pool ctx tables s =
          (some { err := e, msgAndArgs := [Sprintf_table_row dyn table row] },
            { committed := s.committed
              tx := none
              log := s.log ++ [Call.Begin ctx] ++ stmts.map (execCall ctx) ++
                [Call.Exec ctx ("INSERT INTO " ++ table ++ " VALUES ()") []] ++
                [Call.Rollback ctx] })) ∧
      (∀ d2, pool.exec ctx d1 ("INSERT INTO " ++ table ++ " VALUES ()") [] = Except.ok d2 →
        InsertDBTablesWithCtx dyn pool ctx tables s =
          commitAndRollback pool ctx
            (insertBatch dyn pool ctx post
              { committed := s.committed
                tx := some d2
                log := s.log ++ [Call.Begin ctx] ++ stmts.map (execCall ctx) ++
                  [Call.Exec ctx ("INSERT INTO " ++ table ++ " VALUES ()") []] })) := by
  have hb := rowToSql_empty dyn table row htable hq hrow
  have herr : ∀ e,
      pool.exec ctx d1 ("INSERT INTO " ++ table ++ " VALUES ()") [] = Except.error e →
      InsertDBTablesWithCtx dyn pool ctx tables s =
        (some { err := e, msgAndArgs := [Sprintf_table_row dyn table row] },
          { committed := s.committed
            tx := none
            log := s.log ++ [Call.Begin ctx] ++ stmts.map (execCall ctx) ++
              [Call.Exec ctx ("INSERT INTO " ++ table ++ " VALUES ()") []] ++
              [Call.Rollback ctx] }) := by
    intro e he
    have hbad : rowError dyn pool ctx d1 (table, row) = some e := by
      simp [rowError, hb, he]
    rw [call_row_failure dyn pool ctx tables pre post (table, row) stmts d1 e s hbegin hsplit
      hbuild hexec hbad]
    simp [execCallOfRow, hb, execCall]
  have hok : ∀ d2,
      pool.exec ctx d1 ("INSERT INTO " ++ table ++ " VALUES ()") [] = Except.ok d2 →
      InsertDBTablesWithCtx dyn pool ctx tables s =
        commitAndRollback pool ctx
          (insertBatch dyn pool ctx post
            { committed := s.committed
              tx := some d2
              log := s.log ++ [Call.Begin ctx] ++ stmts.map (execCall ctx) ++
                [Call.Exec ctx ("INSERT INTO " ++ table ++ " VALUES ()") []] }) := by
    intro d2 hd
    exact call_row_goes_through dyn pool ctx tables pre post (table, row) stmts
      ("INSERT INTO " ++ table ++ " VALUES ()", []) d1 d2 s hbegin hsplit hbuild hexec hb hd
  refine ⟨hb, ?_, herr, hok⟩
  cases hx : pool.exec ctx d1 ("INSERT INTO " ++ table ++ " VALUES ()") [] with
  | error e =>
    rw [herr e hx]
    exact ⟨[Call.Rollback ctx], rfl⟩
  | ok d2 =>
    rw [hok d2 hx]
    obtain ⟨r1, h1⟩ := commitAndRollback_log pool ctx
      (insertBatch dyn pool ctx post
        { committed := s.committed
          tx := some d2
          log := s.log ++ [Call.Begin ctx] ++ stmts.map (execCall ctx) ++
            [Call.Exec ctx ("INSERT INTO " ++ table ++ " VALUES ()") []] })
    obtain ⟨r2, h2⟩ := insertBatch_log dyn pool ctx post
      { committed := s.committed
        tx := some d2
        log := s.log ++ [Call.Begin ctx] ++ stmts.map (execCall ctx) ++
          [Call.Exec ctx ("INSERT INTO " ++ table ++ " VALUES ()") []] }
    exact ⟨r2 ++ r1, by rw [h1, h2]; simp⟩

theorem empty_row_statement_is_sent_witness :
    InsertDBTablesWithCtx textDyn storePool () emptyMidBatch emptyDB =
        (none,
          { committed :=
              [("INSERT INTO orders (id,name) VALUES ($1,$2)", ["1", "alice"]),
               ("INSERT INTO t VALUES ()", []),
               ("INSERT INTO t (name,id) VALUES ($1,$2)", ["alice", "1"])]
            tx := none
            log := [Call.Begin (),
              Call.Exec () "INSERT INTO orders (id,name) VALUES ($1,$2)" ["1", "alice"],
              Call.Exec () "INSERT INTO t VALUES ()" [],
              Call.Exec () "INSERT INTO t (name,id) VALUES ($1,$2)" ["alice", "1"],
              Call.Commit (), Call.Rollback ()] }) ∧
      InsertDBTablesWithCtx textDyn strictPool () emptyMidBatch emptyDB =
        (some { err := "syntax error at or near \")\""
                msgAndArgs := ["table: t\nrow: map[]"] },
          { committed := []
            tx := none
            log := [Call.Begin (),
              Call.Exec () "INSERT INTO orders (id,name) VALUES ($1,$2)" ["1", "alice"],
              Call.Exec () "INSERT INTO t VALUES ()" [],
              Call.Rollback ()] }) := by
  have h1 := empty_row_statement_is_sent textDyn storePool () emptyMidBatch
    [("orders", aliceRow)] [("t", aliceRowSwapped)] "t" emptyRow
    [("INSERT INTO orders (id,name) VALUES ($1,$2)", ["1", "alice"])]
    [("INSERT INTO orders (id,name) VALUES ($1,$2)", ["1", "alice"])] emptyDB
    (by decide) (by decide) rfl (by decide) (by rfl) (by rfl) (by rfl)
  have h2 := empty_row_statement_is_sent textDyn strictPool () emptyMidBatch
    [("orders", aliceRow)] [("t", aliceRowSwapped)] "t" emptyRow
    [("INSERT INTO orders (id,name) VALUES ($1,$2)", ["1", "alice"])]
    [("INSERT INTO orders (id,name) VALUES ($1,$2)", ["1", "alice"])] emptyDB
    (by decide) (by decide) rfl (by decide) (by rfl) (by rfl) (by rfl)
  exact ⟨(h1.2.2.2 _ (by rfl)).trans (by rfl), (h2.2.2.1 _ (by rfl)).trans (by rfl)⟩

/-- C4 (the claim as stated fails). When the transaction cannot begin, and when the commit
fails, the failure given to the test framework carries the error alone: no message, hence
neither a table name nor a row. -/
theorem begin_commit_failure_counterexample :
    (InsertDBTablesWithCtx textDyn downPool () goodBatch emptyDB).1 =
        some { err := "connection refused", msgAndArgs := [] } ∧
      (InsertDBTablesWithCtx textDyn noCommitPool () goodBatch emptyDB).1 =
        some { err := "commit failed", msgAndArgs := [] } :=
  ⟨by rfl, by rfl⟩

/-- C4 (amended). When the statement of a row cannot be built or its execution fails, the
failure given to the test framework carries the error and the one message
`table: <table>\nrow: <row>` of that row; the message contains the name of the table and,
for every column of the row, the column name with the rendering of its value. -/
theorem row_failure_message_names_table_and_row {Ctx D V : Type} (dyn : Dyn V)
    (pool : Pool Ctx D V) (ctx : Ctx) (tables : List (DBTableRows V))
    (pre post : List (String × DBRow V)) (bad : String × DBRow V)
    (stmts : List (String × List V)) (d1 : D) (e : Err) (s : DB Ctx D V)
    (hbegin : pool.begin ctx s.committed = none)
    (hsplit : batchRows tables = pre ++ bad :: post)
    (hbuild : pre.map (fun p => rowToSql dyn p.1 p.2) = stmts.map Except.ok)
    (hexec : runStmts pool ctx stmts s.committed = Except.ok d1)
    (hbad : rowError dyn pool ctx d1 bad = some e) :
    (InsertDBTablesWithCtx dyn pool ctx tables s).1 =
        some { err := e
               msgAndArgs := ["table: " ++ bad.1 ++ "\nrow: " ++ formatRow dyn bad.2] } ∧
      (∃ a b, "table: " ++ bad.1 ++ "\nrow: " ++ formatRow dyn bad.2 = a ++ bad.1 ++ b) ∧
      ∀ kv ∈ bad.2.entries,
        ∃ a b, "table: " ++ bad.1 ++ "\nrow: " ++ formatRow dyn bad.2 =
          a ++ (kv.1 ++ ":" ++ dyn.format kv.2) ++ b := by
  rw [call_row_failure dyn pool ctx tables pre post bad stmts d1 e s hbegin hsplit hbuild hexec
    hbad]
  exact ⟨rfl, Sprintf_table_row_contains dyn bad.1 bad.2⟩

theorem row_failure_message_names_table_and_row_witness :
    (InsertDBTablesWithCtx textDyn storePool () dupBatch emptyDB).1 =
      some { err := "unique constraint violated"
             msgAndArgs := ["table: order_items\nrow: map[id:dup]"] } :=
  (row_failure_message_names_table_and_row textDyn storePool () dupBatch
    [("orders", aliceRow), ("order_items", aliceRowSwapped)]
    [("order_items", aliceRow), ("later", aliceRow)] ("order_items", dupRow)
    dupStmtsBefore dupStmtsBefore "unique constraint violated" emptyDB
    (by decide) (by rfl) (by rfl) (by rfl) (by rfl)).1

end dbtest
